import Mathlib

/-!
Verification development for the task_organizer repository
(`src/tools/task_master.py`, `src/tools/task_worker.py`).

The wire protocol exchanges flat JSON objects whose fields are all
strings.  We embed the frame codec over `List Char` (one entry per
Unicode code point, the same granularity as a Python `str`), and the
Master's and Worker's state machines as pure functions over explicit
state records.  File-system directories are modelled as lists of file
names; `rename` between directories becomes erase-and-insert.
-/

/-! ## Python string helpers -/

/-- ASCII whitespace as recognised by Python `str.strip()` (for the
ASCII range, which is all that arises on this wire). -/
def isPyWs (c : Char) : Bool :=
  c = ' ' || c = '\t' || c = '\n' || c = '\x0d' || c = '\x0b' || c = '\x0c'

/-- `str.strip()`: drop leading and trailing whitespace. -/
def pyStrip (l : List Char) : List Char :=
  ((l.dropWhile isPyWs).reverse.dropWhile isPyWs).reverse

/-- `str.split('\n')`: split on every newline, keeping empty pieces. -/
def splitOnNl : List Char → List (List Char)
  | [] => [[]]
  | c :: r =>
    if c = '\n' then [] :: splitOnNl r
    else
      match splitOnNl r with
      | [] => [[c]]
      | h :: t => (c :: h) :: t

/-! ## JSON encoder (`json.dumps` with `ensure_ascii=False`, default
separators, restricted to flat objects whose values are strings — the
only shape this protocol ever serializes) -/

/-- Lower-case hexadecimal digit. -/
def hexDigitCh (n : Nat) : Char :=
  if n < 10 then Char.ofNat (48 + n) else Char.ofNat (87 + n)

/-- Escape of one character inside a JSON string literal, as produced
by CPython's `json.dumps` (short escapes for the usual control
characters, `\u00xx` for the remaining ones below 0x20, everything
else verbatim). -/
def escChar (c : Char) : List Char :=
  if c = '"' then ['\\', '"']
  else if c = '\\' then ['\\', '\\']
  else if c = '\n' then ['\\', 'n']
  else if c = '\t' then ['\\', 't']
  else if c = '\x0d' then ['\\', 'r']
  else if c = '\x08' then ['\\', 'b']
  else if c = '\x0c' then ['\\', 'f']
  else if c.toNat < 0x20 then
    ['\\', 'u', '0', '0', hexDigitCh (c.toNat / 16), hexDigitCh (c.toNat % 16)]
  else [c]

/-- Body of a JSON string literal. -/
def escBody (s : List Char) : List Char :=
  (s.map escChar).flatten

/-- A quoted JSON string literal. -/
def quoteStr (s : List Char) : List Char :=
  '"' :: escBody s ++ ['"']

/-- One `"key": "value"` member. -/
def memberStr (p : List Char × List Char) : List Char :=
  quoteStr p.1 ++ ':' :: ' ' :: quoteStr p.2

/-- The members of an object, joined by `", "`. -/
def membersStr : List (List Char × List Char) → List Char
  | [] => []
  | [p] => memberStr p
  | p :: ps => memberStr p ++ ',' :: ' ' :: membersStr ps

/-- `json.dumps` of a flat string-valued object (insertion order of
the Python dict preserved). -/
def jsonDumps (ps : List (List Char × List Char)) : List Char :=
  '{' :: membersStr ps ++ ['}']

/-! ## JSON decoder (`json.loads`, restricted to the same grammar:
a single flat object whose keys and values are string literals,
surrounded by optional whitespace, with no trailing data — `json.loads`
raises on extra data, which we model as `none`) -/

/-- JSON inter-token whitespace. -/
def isJsonWs (c : Char) : Bool :=
  c = ' ' || c = '\t' || c = '\n' || c = '\x0d'

/-- Skip inter-token whitespace. -/
def skipWs (l : List Char) : List Char :=
  l.dropWhile isJsonWs

/-- Value of one hexadecimal digit. -/
def hexVal (c : Char) : Option Nat :=
  if '0' ≤ c ∧ c ≤ '9' then some (c.toNat - 48)
  else if 'a' ≤ c ∧ c ≤ 'f' then some (c.toNat - 87)
  else if 'A' ≤ c ∧ c ≤ 'F' then some (c.toNat - 55)
  else none

/-- The character denoted by a short escape `\e`. -/
def escCode (e : Char) : Option Char :=
  if e = '"' then some '"'
  else if e = '\\' then some '\\'
  else if e = '/' then some '/'
  else if e = 'b' then some '\x08'
  else if e = 'f' then some '\x0c'
  else if e = 'n' then some '\n'
  else if e = 'r' then some '\x0d'
  else if e = 't' then some '\t'
  else none

/-- Parse the body of a JSON string literal (the opening quote already
consumed); returns the decoded content and the input after the closing
quote.  Unescaped control characters are rejected (`json.loads` is
strict by default).  `\uXXXX` escapes in the surrogate range are
rejected; the encoder above never produces them, so this restriction
is invisible on any input arising from the wire. -/
def parseStringBody : List Char → Option (List Char × List Char)
  | [] => none
  | c :: r =>
    if c = '"' then some ([], r)
    else if c = '\\' then
      match r with
      | [] => none
      | e :: r2 =>
        if e = 'u' then
          match r2 with
          | h1 :: h2 :: h3 :: h4 :: r3 =>
            match hexVal h1, hexVal h2, hexVal h3, hexVal h4 with
            | some a, some b, some cc, some d =>
              let n := ((a * 16 + b) * 16 + cc) * 16 + d
              if n < 0xd800 ∨ 0xe000 ≤ n then
                (parseStringBody r3).map (fun p => (Char.ofNat n :: p.1, p.2))
              else none
            | _, _, _, _ => none
          | _ => none
        else
          match escCode e with
          | some d => (parseStringBody r2).map (fun p => (d :: p.1, p.2))
          | none => none
    else if c.toNat < 0x20 then none
    else (parseStringBody r).map (fun p => (c :: p.1, p.2))

/-- Parse the member list of an object, positioned at the first
character after `{` (whitespace already skipped); consumes up to and
including the closing `}`.  Fuel bounds the number of members. -/
def parseMembers : Nat → List Char → Option (List (List Char × List Char) × List Char)
  | 0, _ => none
  | fuel + 1, l =>
    match l with
    | [] => none
    | c :: r =>
      if c = '"' then
        match parseStringBody r with
        | none => none
        | some (k, r1) =>
          match skipWs r1 with
          | [] => none
          | c2 :: r2 =>
            if c2 = ':' then
              match skipWs r2 with
              | [] => none
              | c3 :: r3 =>
                if c3 = '"' then
                  match parseStringBody r3 with
                  | none => none
                  | some (v, r4) =>
                    match skipWs r4 with
                    | [] => none
                    | c4 :: r5 =>
                      if c4 = ',' then
                        match parseMembers fuel (skipWs r5) with
                        | some (ps, rest) => some ((k, v) :: ps, rest)
                        | none => none
                      else if c4 = '}' then some ([(k, v)], r5)
                      else none
                else none
            else none
      else none

/-- Python-dict insertion: a repeated key keeps its first position but
takes the last value. -/
def dictInsert (d : List (List Char × List Char)) (k v : List Char) :
    List (List Char × List Char) :=
  if d.any (fun p => p.1 = k) then
    d.map (fun p => if p.1 = k then (k, v) else p)
  else d ++ [(k, v)]

/-- Collapse a parsed member list with Python-dict semantics. -/
def dictOfPairs (ps : List (List Char × List Char)) :
    List (List Char × List Char) :=
  ps.foldl (fun d p => dictInsert d p.1 p.2) []

/-- `json.loads` on one candidate frame: a single flat string-valued
object, optional surrounding whitespace, no trailing data. -/
def jsonLoads (l : List Char) : Option (List (List Char × List Char)) :=
  match skipWs l with
  | [] => none
  | c :: r =>
    if c = '{' then
      match skipWs r with
      | [] =>
        match parseMembers 1 [] with
        | some (ps, rest) => if skipWs rest = [] then some (dictOfPairs ps) else none
        | none => none
      | c2 :: rest =>
        if c2 = '}' then (if skipWs rest = [] then some [] else none)
        else
          match parseMembers ((c2 :: rest).length + 1) (c2 :: rest) with
          | some (ps, rest2) =>
            if skipWs rest2 = [] then some (dictOfPairs ps) else none
          | none => none
    else none

/-! ## The Master's frame decoder
(`TaskMaster._parse_json_messages` / `_split_concatenated_json`) -/

/-- Loop body of `_split_concatenated_json`: walk the characters
keeping a brace counter (a Python `int`, so it may go negative) and
the current accumulated fragment (kept reversed); emit a fragment each
time the counter returns to zero on a `}`; at the end the residue is
kept when it is not pure whitespace. -/
def sczGo : List Char → Int → List Char → List (List Char)
  | [], _, cur => if pyStrip cur.reverse ≠ [] then [cur.reverse] else []
  | c :: rest, count, cur =>
    if c = '{' then sczGo rest (count + 1) (c :: cur)
    else if c = '}' then
      if count - 1 = 0 then (c :: cur).reverse :: sczGo rest (count - 1) []
      else sczGo rest (count - 1) (c :: cur)
    else sczGo rest count (c :: cur)

/-- `TaskMaster._split_concatenated_json`. -/
def split_concatenated_json (data : List Char) : List (List Char) :=
  sczGo data 0 []

/-- Per-line processing inside `TaskMaster._parse_json_messages`:
strip the line, skip it when empty, try `json.loads`, and on failure
fall back to the brace splitter, keeping every fragment that parses. -/
def parseJsonLine (line : List Char) : List (List (List Char × List Char)) :=
  let l := pyStrip line
  if l = [] then []
  else
    match jsonLoads l with
    | some m => [m]
    | none =>
      (split_concatenated_json l).filterMap
        (fun part => if pyStrip part = [] then none else jsonLoads (pyStrip part))

/-- `TaskMaster._parse_json_messages`: strip the datagram, split on
newlines, process each line. -/
def parse_json_messages (data : List Char) : List (List (List Char × List Char)) :=
  ((splitOnNl (pyStrip data)).map parseJsonLine).flatten

/-! ## Wire messages and the byte payloads actually written to the
socket.  The Master builds its dicts as `{"type", "msg"}` or
`{"type", "msg", "req_id"}` and sends `json.dumps(...)` with NO
newline appended (`task_master.py` lines 203, 355, 417); every Worker
send appends `'\n'` (`task_worker.py` lines 799, 1010, 1057, 1132). -/

structure WireMsg where
  type : String
  msg : String
  req_id : Option String := none
deriving DecidableEq, Repr

/-- The key/value pairs of the dict a message is built from, in
insertion order. -/
def wirePairs (m : WireMsg) : List (List Char × List Char) :=
  [("type".data, m.type.data), ("msg".data, m.msg.data)] ++
    (match m.req_id with
     | some r => [("req_id".data, r.data)]
     | none => [])

/-- Bytes the Master writes for one message: bare JSON, no terminator. -/
def master_send_payload (m : WireMsg) : List Char :=
  jsonDumps (wirePairs m)

/-- Bytes the Worker writes for one message: JSON plus a `'\n'`. -/
def worker_send_payload (m : WireMsg) : List Char :=
  jsonDumps (wirePairs m) ++ ['\n']

/-! ## Master state (`task_master.py`) -/

/-- `RequestInfo`. -/
structure RequestInfo where
  request_id : String
  timeout_time : Nat
deriving DecidableEq, Repr

/-- `WorkerObject` (the socket handle is not represented; it never
influences the state transitions modelled here). -/
structure WorkerObject where
  worker_id : String
  current_task_file : String := ""
  status : String := "idle"
  request_infos : List RequestInfo := []
deriving DecidableEq, Repr

/-- The four task directories, each a list of file names (a real
directory holds each name at most once; the operations below preserve
that). -/
structure TaskDirs where
  pending : List String
  working : List String
  done : List String
  failed : List String
deriving DecidableEq, Repr

/-- `rename src/<f> → dst/<f>`: remove from the source listing, add to
the destination listing (an existing destination entry is overwritten,
so the name appears once). -/
def dirInsert (d : List String) (f : String) : List String :=
  if f ∈ d then d else d ++ [f]

/-- An internal (thread-queue) message of the Master, `{"type", "msg"}`. -/
structure InternalMsg where
  type : String
  msg : String
deriving DecidableEq, Repr

/-- The Master's mutable state touched by the handlers under study:
the worker dict (an association list in insertion order, Python dict
semantics), the task directories, the internal message queue, and the
counters. -/
structure MasterState where
  workers : List (String × WorkerObject)
  dirs : TaskDirs
  message_queue : List InternalMsg
  total_tasks : Nat := 0
  success_tasks : Nat := 0
  failed_tasks : Nat := 0
deriving DecidableEq, Repr

/-- `self.workers.get(worker_id)`. -/
def wGet (ws : List (String × WorkerObject)) (wid : String) : Option WorkerObject :=
  (ws.find? (fun p => p.1 = wid)).map Prod.snd

/-- `self.workers[worker_id] = w` (existing key keeps its position). -/
def wSet (ws : List (String × WorkerObject)) (wid : String) (w : WorkerObject) :
    List (String × WorkerObject) :=
  if ws.any (fun p => p.1 = wid) then
    ws.map (fun p => if p.1 = wid then (wid, w) else p)
  else ws ++ [(wid, w)]

/-- `del self.workers[worker_id]`. -/
def wDel (ws : List (String × WorkerObject)) (wid : String) :
    List (String × WorkerObject) :=
  ws.filter (fun p => p.1 ≠ wid)

/-- Mutate the record of `wid` in place (no-op when absent). -/
def wUpdate (ws : List (String × WorkerObject)) (wid : String)
    (f : WorkerObject → WorkerObject) : List (String × WorkerObject) :=
  ws.map (fun p => if p.1 = wid then (p.1, f p.2) else p)

/-! ## Master handlers -/

/-- `TaskMaster._handle_task_completion` (lines 275-304).  The third
source argument (the report's `msg`) is only logged, so it does not
appear here; the moved name is `worker.current_task_file`, recorded at
assignment time.  The move happens only when `working/<name>` exists;
status and assignment are reset unconditionally. -/
def handle_task_completion (s : MasterState) (worker_id : String)
    (result_type : String) : MasterState :=
  match wGet s.workers worker_id with
  | none => s
  | some w =>
    let s :=
      if result_type = "DONE" then
        { s with success_tasks := s.success_tasks + 1 }
      else
        { s with failed_tasks := s.failed_tasks + 1 }
    let s :=
      if w.current_task_file ∈ s.dirs.working then
        let target :=
          if result_type = "DONE" then
            { s.dirs with
                working := s.dirs.working.erase w.current_task_file
                done := dirInsert s.dirs.done w.current_task_file }
          else
            { s.dirs with
                working := s.dirs.working.erase w.current_task_file
                failed := dirInsert s.dirs.failed w.current_task_file }
        { s with dirs := target }
      else s
    { s with
        workers := (wUpdate s.workers worker_id
          (fun w => { w with status := "idle", current_task_file := "" })) }

/-- `TaskMaster._handle_worker_disconnect` (lines 466-491): when the
record exists, move `working/<file>` back to `pending/` — but only
when the status is exactly `"working"` and the assigned name is
non-empty and the file is present — then mark the record `"exiting"`.
The separate disconnect thread later enqueues the internal
`DISCONNECT` message; see `disconnect_finalize`. -/
def handle_worker_disconnect (s : MasterState) (worker_id : String) : MasterState :=
  match wGet s.workers worker_id with
  | none => s
  | some w =>
    let s :=
      if w.status = "working" ∧ w.current_task_file ≠ "" ∧
          w.current_task_file ∈ s.dirs.working then
        { s with dirs :=
            { s.dirs with
                working := s.dirs.working.erase w.current_task_file
                pending := dirInsert s.dirs.pending w.current_task_file } }
      else s
    { s with workers := (wUpdate s.workers worker_id
        (fun w => { w with status := "exiting" })) }

/-- The `DISCONNECT` internal message processed by
`_process_internal_messages` (lines 320-324): delete the record. -/
def disconnect_finalize (s : MasterState) (worker_id : String) : MasterState :=
  { s with workers := wDel s.workers worker_id }

/-- The complete disconnect path for one worker: the synchronous
handler followed by the deferred record deletion. -/
def disconnect_path (s : MasterState) (worker_id : String) : MasterState :=
  disconnect_finalize (handle_worker_disconnect s worker_id) worker_id

/-- `TaskMaster._handle_worker_message` (lines 243-273).  Branches:
`REQUEST_ACK` (any truthy req_id flips the status to `"working"` and
filters the outstanding records), `DONE`/`FAILED`, `CHECK_ACK`,
`LEAVE`; every other type — `USAGE_LIMITED` included — falls through
with no effect. -/
def handle_worker_message (s : MasterState) (worker_id : String)
    (m : WireMsg) : MasterState :=
  match wGet s.workers worker_id with
  | none => s
  | some _ =>
    if m.type = "REQUEST_ACK" then
      match m.req_id with
      | some r =>
        if r ≠ "" then
          { s with workers := (wUpdate s.workers worker_id
              (fun w => { w with
                  status := "working"
                  request_infos := (w.request_infos.filter
                    (fun ri => ri.request_id ≠ r)) })) }
        else s
      | none => s
    else if m.type = "DONE" ∨ m.type = "FAILED" then
      handle_task_completion s worker_id m.type
    else if m.type = "CHECK_ACK" then
      match m.req_id with
      | some r =>
        if r ≠ "" then
          { s with workers := (wUpdate s.workers worker_id
              (fun w => { w with
                  request_infos := (w.request_infos.filter
                    (fun ri => ri.request_id ≠ r)) })) }
        else s
      | none => s
    else if m.type = "LEAVE" then
      handle_worker_disconnect s worker_id
    else s

/-- `TaskMaster._handle_new_worker` (lines 183-212), after the JSON of
the join datagram has been decoded.  On a `JOIN`, a fresh idle record
is stored under the carried worker-id — a plain dict assignment, so an
existing record with the same id is silently overwritten — and a
`JOIN_ACK` is sent back.  Any other type registers nothing. -/
def handle_new_worker (s : MasterState) (m : WireMsg) :
    MasterState × Option WireMsg :=
  if m.type = "JOIN" then
    let worker_id := m.msg
    let w : WorkerObject := { worker_id := worker_id, status := "idle" }
    ({ s with workers := wSet s.workers worker_id w },
      some { type := "JOIN_ACK", msg := "" })
  else (s, none)

/-- `TaskMaster._perform_health_checks` (lines 344-373) on the success
path (a failed socket send, not representable here, instead triggers
the disconnect handler): one `CHECK` per registered worker, with a
fresh req_id drawn from the supply and a deadline `now + 3`. -/
def perform_health_checks (fresh : Nat → String) (now : Nat)
    (s : MasterState) : MasterState × List (String × WireMsg) :=
  ({ s with workers := (s.workers.mapIdx
      (fun i p => (p.1, { p.2 with request_infos :=
        p.2.request_infos ++ [{ request_id := fresh i, timeout_time := now + 3 }] }))) },
    s.workers.mapIdx (fun i p =>
      (p.1, { type := "CHECK", msg := "", req_id := some (fresh i) })))

/-- `TaskMaster._handle_timer_event` (lines 330-342): when
`|pending| + |working| = 0` enqueue the internal `COMPLETED` message
and return — no health checks are sent on that tick; otherwise run the
health checks. -/
def handle_timer_event (fresh : Nat → String) (now : Nat)
    (s : MasterState) : MasterState × List (String × WireMsg) :=
  if s.dirs.pending.length + s.dirs.working.length = 0 then
    ({ s with message_queue := s.message_queue ++ [{ type := "COMPLETED", msg := "" }] }, [])
  else
    perform_health_checks fresh now s

/-- One assignment step of `TaskMaster._process_pending_tasks`
(lines 391-436), success path: move the file `pending/ → working/`,
send `REQUEST` whose `msg` is the file's content — the file NAME is
not part of the message — and record the assignment on the worker. -/
def assign_task (contents : String → String) (now : Nat) (rid : String)
    (s : MasterState) (file : String) (wid : String) :
    MasterState × (String × WireMsg) :=
  let dirs := { s.dirs with
      pending := s.dirs.pending.erase file
      working := dirInsert s.dirs.working file }
  let s := { s with
      dirs := dirs
      workers := (wUpdate s.workers wid
        (fun w => { w with
            status := "requesting"
            current_task_file := file
            request_infos := (w.request_infos ++
              [{ request_id := rid, timeout_time := now + 3 }]) }))
      total_tasks := s.total_tasks + 1 }
  (s, (wid, { type := "REQUEST", msg := contents file, req_id := some rid }))

/-- Fold of the assignment loop over the (file, worker) pairs. -/
def assign_loop (contents : String → String) (fresh : Nat → String) (now : Nat) :
    MasterState → List (String × String) → Nat → MasterState × List (String × WireMsg)
  | s, [], _ => (s, [])
  | s, (file, wid) :: rest, i =>
    let (s1, out) := assign_task contents now (fresh i) s file wid
    let (s2, outs) := assign_loop contents fresh now s1 rest (i + 1)
    (s2, out :: outs)

/-- `TaskMaster._process_pending_tasks` (lines 375-442): snapshot the
pending listing and the idle workers (dict order), pair them
one-to-one, and assign each pair. -/
def process_pending_tasks (contents : String → String) (fresh : Nat → String)
    (now : Nat) (s : MasterState) : MasterState × List (String × WireMsg) :=
  let idle := (s.workers.filter (fun p => p.2.status = "idle")).map Prod.fst
  assign_loop contents fresh now s (s.dirs.pending.zip idle) 0

/-! ## Worker model (`task_worker.py`) -/

/-- A message placed on the supervisor's inbox by the protocol loop
(`TaskWorker._handle_task_request`, line 1075) or extracted from the
dispatched `REQUEST`.  `task_filename` is SYNTHESIZED by the protocol
loop as `f"task_{req_id}"` — the Master's `REQUEST` carries only the
prompt text, never the file name. -/
structure SupMsg where
  type : String
  msg : String
  req_id : Option String
  task_filename : String
deriving DecidableEq, Repr

/-- A result handed back by the supervisor
(`ClaudeManagerThread._execute_task_async`, lines 273-293): the
classification, the `task_filename` it was given, and the req_id. -/
structure SupResult where
  type : String
  msg : String
  req_id : Option String
deriving DecidableEq, Repr

/-- Python renders `None` as the string `"None"` inside an f-string. -/
def fstrOpt : Option String → String
  | some r => r
  | none => "None"

/-- The worker-loop state the dispatched handlers touch. -/
structure WorkerLoopState where
  worker_id : String
  running : Bool := true
  last_request_time : Option Nat := none
  request_count : Nat := 0
  inbox : List SupMsg := []
deriving DecidableEq, Repr

/-- `ClaudeManagerThread._execute_task_async` result callback for a
run that classified as `result_type`: the reported `msg` is exactly
the `task_filename` the supervisor was handed. -/
def supervisor_result (m : SupMsg) (result_type : String) : SupResult :=
  { type := result_type, msg := m.task_filename, req_id := m.req_id }

/-- `TaskWorker._handle_master_message` (lines 952-989) together with
the bodies it calls (`_handle_health_check`, `_handle_task_request`):
returns the updated loop state and the messages written to the socket
by this dispatch, in order.  A `CHECK` answers with `CHECK_ACK`
echoing the req_id before the dispatcher returns; a `REQUEST` answers
with `REQUEST_ACK` and then appends to the supervisor inbox; a
`DISCONNECT` clears the running flag; anything else is logged only. -/
def handle_master_message (now : Nat) (st : WorkerLoopState) (m : WireMsg) :
    WorkerLoopState × List WireMsg :=
  if m.type = "CHECK" then
    (st, [{ type := "CHECK_ACK", msg := "", req_id := m.req_id }])
  else if m.type = "REQUEST" then
    let st := { st with
        last_request_time := some now
        request_count := st.request_count + 1 }
    let st := { st with inbox := (st.inbox ++
        [{ type := "REQUEST"
           msg := m.msg
           req_id := m.req_id
           task_filename := "task_" ++ fstrOpt m.req_id }]) }
    (st, [{ type := "REQUEST_ACK", msg := "", req_id := m.req_id }])
  else if m.type = "DISCONNECT" then
    ({ st with running := false }, [])
  else
    (st, [])

/-- The frame-dispatch loop of `TaskWorker._receive_master_messages`
(lines 916-931): complete frames are handled strictly in order, each
one synchronously, and the sends of each dispatch are written before
the next frame is examined. -/
def dispatch_frames (now : Nat) (st : WorkerLoopState) :
    List WireMsg → WorkerLoopState × List WireMsg
  | [] => (st, [])
  | m :: rest =>
    ((dispatch_frames now (handle_master_message now st m).1 rest).1,
      (handle_master_message now st m).2 ++
        (dispatch_frames now (handle_master_message now st m).1 rest).2)

/-- `TaskWorker._send_task_result` (lines 1106-1133): `USAGE_LIMITED`
reports the worker-id, `DONE`/`FAILED` report the `msg` carried by the
supervisor result (its `task_filename`). -/
def send_task_result (worker_id : String) (r : SupResult) : WireMsg :=
  if r.type = "USAGE_LIMITED" then
    { type := "USAGE_LIMITED", msg := worker_id }
  else
    { type := r.type, msg := r.msg }

/-- `TaskWorker._process_claude_results` (lines 1095-1104): drain the
outbox and send one report per result, in order. -/
def process_claude_results (worker_id : String) (results : List SupResult) :
    List WireMsg :=
  results.map (send_task_result worker_id)

/-- One pass of the worker main loop (lines 840-880) restricted to its
two send-producing phases, in their program order: first every
complete inbound frame is dispatched, then the supervisor outbox is
drained.  All socket writes of the pass appear in this order. -/
def worker_loop_pass (now : Nat) (st : WorkerLoopState)
    (frames : List WireMsg) (results : List SupResult) :
    WorkerLoopState × List WireMsg :=
  ((dispatch_frames now st frames).1,
    (dispatch_frames now st frames).2 ++
      process_claude_results st.worker_id results)

/-! ## Registry lemmas -/

theorem wGet_cons_ne (p : String × WorkerObject) (rest : List (String × WorkerObject))
    (wid : String) (h : ¬ p.1 = wid) :
    wGet (p :: rest) wid = wGet rest wid := by
  simp [wGet, List.find?_cons, h]

theorem wUpdate_cons_ne (p : String × WorkerObject) (rest : List (String × WorkerObject))
    (wid : String) (f : WorkerObject → WorkerObject) (h : ¬ p.1 = wid) :
    wUpdate (p :: rest) wid f = p :: wUpdate rest wid f := by
  simp [wUpdate, h]

theorem wGet_wUpdate_self (ws : List (String × WorkerObject)) (wid : String)
    (f : WorkerObject → WorkerObject) :
    wGet (wUpdate ws wid f) wid = (wGet ws wid).map f := by
  induction ws with
  | nil => rfl
  | cons p rest ih =>
    by_cases h : p.1 = wid
    · simp [wGet, wUpdate, List.find?_cons, h]
    · rw [wUpdate_cons_ne p rest wid f h, wGet_cons_ne p rest wid h,
        wGet_cons_ne _ _ wid (by simpa using h), ih]

theorem wGet_wDel_self (ws : List (String × WorkerObject)) (wid : String) :
    wGet (wDel ws wid) wid = none := by
  unfold wGet wDel
  rw [Option.map_eq_none']
  rw [List.find?_eq_none]
  intro p hp
  simp only [List.mem_filter, decide_eq_true_eq] at hp
  simp [hp.2]

theorem wGet_wSet_self (ws : List (String × WorkerObject)) (wid : String)
    (w : WorkerObject) :
    wGet (wSet ws wid w) wid = some w := by
  induction ws with
  | nil => simp [wSet, wGet, List.find?_cons]
  | cons p rest ih =>
    by_cases h : p.1 = wid
    · have step : wSet (p :: rest) wid w =
          (wid, w) :: rest.map (fun q => if q.1 = wid then (wid, w) else q) := by
        simp [wSet, List.any_cons, h]
      rw [step]
      simp [wGet, List.find?_cons]
    · have step : wSet (p :: rest) wid w = p :: wSet rest wid w := by
        by_cases h2 : rest.any (fun q => q.1 = wid)
        · simp [wSet, List.any_cons, h, h2]
        · simp [wSet, List.any_cons, h, h2]
      rw [step, wGet_cons_ne p _ wid h, ih]

theorem wDel_wUpdate (ws : List (String × WorkerObject)) (wid : String)
    (f : WorkerObject → WorkerObject) :
    wDel (wUpdate ws wid f) wid = wDel ws wid := by
  induction ws with
  | nil => rfl
  | cons p rest ih =>
    by_cases h : p.1 = wid
    · simp only [wUpdate, List.map_cons, if_pos h, wDel, List.filter_cons]
      simp only [wDel, wUpdate] at ih
      simpa [h] using ih
    · simp only [wUpdate, List.map_cons, if_neg h, wDel, List.filter_cons]
      simp only [wDel, wUpdate] at ih
      simpa [h] using ih

/-! ## Concrete scenario states shared by several claims -/

/-- A worker that has been sent a `REQUEST` for `t001.txt` but has not
yet acknowledged it. -/
def wReq : WorkerObject :=
  { worker_id := "55000", current_task_file := "t001.txt",
    status := "requesting",
    request_infos := [{ request_id := "r1", timeout_time := 13 }] }

/-- The same worker after its `REQUEST_ACK` was processed. -/
def wWork : WorkerObject :=
  { worker_id := "55000", current_task_file := "t001.txt",
    status := "working", request_infos := [] }

/-- Master state with one `requesting` worker and `t001.txt` in
`working/`. -/
def sReq : MasterState :=
  { workers := [("55000", wReq)],
    dirs := { pending := [], working := ["t001.txt"], done := [], failed := [] },
    message_queue := [] }

/-- Master state with one `working` worker and `t001.txt` in
`working/`. -/
def sWork : MasterState :=
  { workers := [("55000", wWork)],
    dirs := { pending := [], working := ["t001.txt"], done := [], failed := [] },
    message_queue := [] }

/-! ## C1 -/

/-- C1, counterexample: the claim asserts that a `requesting` worker
with an assigned file in `working/` gets that file moved back to
`pending/` by the disconnect handler.  On `sReq` (status
`"requesting"`, `working/ = [t001.txt]`) the handler moves nothing:
the file is still in `working/` and absent from `pending/`. -/
theorem C1_counterexample :
    "t001.txt" ∉ (disconnect_path sReq "55000").dirs.pending ∧
    "t001.txt" ∈ (disconnect_path sReq "55000").dirs.working ∧
    wGet (disconnect_path sReq "55000").workers "55000" = none := by
  decide

/-- C1, amended: the disconnect handler moves `working/F` back to
`pending/` only when the record's status is exactly `working` (and the
assigned name is non-empty and the file present); a worker whose
status is `requesting` gets NO file move — its file stays in
`working/` — and when `working/F` is absent nothing is moved.  In
every case the record is removed by the completed disconnect path. -/
theorem hwd_dirs (s : MasterState) (wid : String) (w : WorkerObject)
    (hw : wGet s.workers wid = some w) :
    (handle_worker_disconnect s wid).dirs =
      (if w.status = "working" ∧ w.current_task_file ≠ "" ∧
          w.current_task_file ∈ s.dirs.working then
        { s.dirs with
            working := s.dirs.working.erase w.current_task_file
            pending := dirInsert s.dirs.pending w.current_task_file }
      else s.dirs) := by
  unfold handle_worker_disconnect
  rw [hw]
  dsimp only
  split_ifs with hc <;> rfl

theorem hwd_workers (s : MasterState) (wid : String) (w : WorkerObject)
    (hw : wGet s.workers wid = some w) :
    (handle_worker_disconnect s wid).workers =
      wUpdate s.workers wid (fun w => { w with status := "exiting" }) := by
  unfold handle_worker_disconnect
  rw [hw]
  dsimp only
  split_ifs with hc <;> rfl

theorem disconnect_path_dirs (s : MasterState) (wid : String) :
    (disconnect_path s wid).dirs = (handle_worker_disconnect s wid).dirs := rfl

theorem disconnect_path_workers (s : MasterState) (wid : String) :
    (disconnect_path s wid).workers =
      wDel (handle_worker_disconnect s wid).workers wid := rfl

/-- C1, amended: the disconnect handler moves `working/F` back to
`pending/` only when the record's status is exactly `working` (and the
assigned name is non-empty and the file present); a worker whose
status is `requesting` gets NO file move — its file stays in
`working/` — and when `working/F` is absent nothing is moved.  In
every case the record is removed by the completed disconnect path. -/
theorem C1_amended (s : MasterState) (wid : String) (w : WorkerObject)
    (hw : wGet s.workers wid = some w) (hnd : s.dirs.working.Nodup) :
    wGet (disconnect_path s wid).workers wid = none ∧
    (w.status = "working" → w.current_task_file ≠ "" →
      w.current_task_file ∈ s.dirs.working →
      w.current_task_file ∈ (disconnect_path s wid).dirs.pending ∧
      w.current_task_file ∉ (disconnect_path s wid).dirs.working) ∧
    (w.current_task_file ∉ s.dirs.working → (disconnect_path s wid).dirs = s.dirs) ∧
    (w.status = "requesting" → (disconnect_path s wid).dirs = s.dirs) := by
  have hdirs := hwd_dirs s wid w hw
  rw [disconnect_path_dirs] at *
  refine ⟨?_, ?_, ?_, ?_⟩
  · rw [disconnect_path_workers, hwd_workers s wid w hw, wGet_wDel_self]
  · intro h1 h2 h3
    rw [hdirs, if_pos ⟨h1, h2, h3⟩]
    constructor
    · simp only [dirInsert]
      by_cases hm : w.current_task_file ∈ s.dirs.pending <;> simp [hm]
    · exact hnd.not_mem_erase
  · intro h
    rw [hdirs, if_neg]
    rintro ⟨-, -, h3⟩
    exact h h3
  · intro h
    rw [hdirs, if_neg]
    rintro ⟨h1, -, -⟩
    rw [h] at h1
    exact absurd h1 (by decide)

/-- C1, witness for the amended theorem at the concrete state
`sWork`. -/
theorem C1_amended_witness :
    wGet (disconnect_path sWork "55000").workers "55000" = none ∧
    ("t001.txt" ∈ (disconnect_path sWork "55000").dirs.pending ∧
      "t001.txt" ∉ (disconnect_path sWork "55000").dirs.working) := by
  have h := C1_amended sWork "55000" wWork (by decide) (by decide)
  exact ⟨h.1, h.2.1 (by decide) (by decide) (by decide)⟩

/-! ## C2 -/

/-- C2, counterexample: the claim asserts a `USAGE_LIMITED` report
returns the assigned task to `pending/` via the disconnect path.  On
`sWork` (worker `working` on `t001.txt`, file in `working/`) the
handler leaves the state completely unchanged: nothing reaches
`pending/`, the record is untouched. -/
theorem C2_counterexample :
    handle_worker_message sWork "55000"
      { type := "USAGE_LIMITED", msg := "55000" } = sWork ∧
    "t001.txt" ∉ (handle_worker_message sWork "55000"
      { type := "USAGE_LIMITED", msg := "55000" }).dirs.pending := by
  decide

/-- C2, amended: the Master's message handler has no `USAGE_LIMITED`
branch; such a report is ignored entirely — no state change, no file
move, no disconnect — for every state and worker. -/
theorem C2_amended (s : MasterState) (wid : String) (m : WireMsg)
    (ht : m.type = "USAGE_LIMITED") :
    handle_worker_message s wid m = s := by
  unfold handle_worker_message
  cases hg : wGet s.workers wid with
  | none => rfl
  | some w =>
    dsimp only
    rw [if_neg (by rw [ht]; decide), if_neg (by rw [ht]; decide),
      if_neg (by rw [ht]; decide), if_neg (by rw [ht]; decide)]

/-- C2, witness. -/
theorem C2_amended_witness :
    handle_worker_message sWork "55000"
      { type := "USAGE_LIMITED", msg := "55000" } = sWork :=
  C2_amended sWork "55000" { type := "USAGE_LIMITED", msg := "55000" } rfl

/-! ## C5 -/

/-- C5, counterexample: the claim asserts that a `REQUEST_ACK`
carrying an unknown req_id is ignored, leaving the worker's status
unchanged.  On `sReq` (status `requesting`, outstanding record `r1`)
an ack carrying the unknown req_id `bogus` still flips the status to
`working` and removes nothing. -/
theorem C5_counterexample :
    wGet (handle_worker_message sReq "55000"
        { type := "REQUEST_ACK", msg := "", req_id := some "bogus" }).workers
        "55000" =
      some { worker_id := "55000", current_task_file := "t001.txt",
             status := "working",
             request_infos := [{ request_id := "r1", timeout_time := 13 }] } := by
  decide

/-- C5, amended: a `REQUEST_ACK` carrying any non-empty req_id —
matching an outstanding record or not — sets the worker's status to
`working` and deletes exactly the outstanding records with that id;
only a missing or empty req_id leaves the state unchanged. -/
theorem C5_amended (s : MasterState) (wid : String) (w : WorkerObject)
    (r : String) (hw : wGet s.workers wid = some w) (hr : r ≠ "") :
    wGet (handle_worker_message s wid
        { type := "REQUEST_ACK", msg := "", req_id := some r }).workers wid =
      some { w with
               status := "working",
               request_infos := w.request_infos.filter
                 (fun ri => ri.request_id ≠ r) } ∧
    handle_worker_message s wid
        { type := "REQUEST_ACK", msg := "", req_id := none } = s ∧
    handle_worker_message s wid
        { type := "REQUEST_ACK", msg := "", req_id := some "" } = s := by
  refine ⟨?_, ?_, ?_⟩
  · unfold handle_worker_message
    rw [hw]
    dsimp only
    rw [if_pos rfl, if_pos hr]
    dsimp only
    rw [wGet_wUpdate_self, hw]
    rfl
  · unfold handle_worker_message
    rw [hw]
    dsimp only
    rw [if_pos rfl]
  · unfold handle_worker_message
    rw [hw]
    dsimp only
    rw [if_pos rfl, if_neg (by simp)]

/-- C5, witness for the amended theorem on `sReq` with the matching
req_id `r1`. -/
theorem C5_amended_witness :
    wGet (handle_worker_message sReq "55000"
        { type := "REQUEST_ACK", msg := "", req_id := some "r1" }).workers
        "55000" =
      some { worker_id := "55000", current_task_file := "t001.txt",
             status := "working", request_infos := [] } := by
  have h := (C5_amended sReq "55000" wReq "r1" (by decide) (by decide)).1
  rw [h]
  decide

/-! ## C9 -/

/-- C9: a `JOIN` whose worker-id collides with a registered record
overwrites that record with a fresh idle one, replies `JOIN_ACK`, and
runs no disconnect handling — the task directories (in particular the
replaced worker's file in `working/`) are untouched, and nothing is
added to `pending/`. -/
theorem C9_join_overwrite (s : MasterState) (wid : String) (old : WorkerObject)
    (_hw : wGet s.workers wid = some old) :
    wGet (handle_new_worker s { type := "JOIN", msg := wid }).1.workers wid =
      some { worker_id := wid, current_task_file := "", status := "idle",
             request_infos := [] } ∧
    (handle_new_worker s { type := "JOIN", msg := wid }).2 =
      some { type := "JOIN_ACK", msg := "" } ∧
    (handle_new_worker s { type := "JOIN", msg := wid }).1.dirs = s.dirs ∧
    (handle_new_worker s { type := "JOIN", msg := wid }).1.message_queue =
      s.message_queue := by
  refine ⟨?_, rfl, rfl, rfl⟩
  unfold handle_new_worker
  rw [if_pos rfl]
  dsimp only
  rw [wGet_wSet_self]

/-- C9, witness on `sWork`: the replaced worker was `working` on
`t001.txt`; after the overwriting `JOIN`, the record is fresh and
`t001.txt` is still in `working/`, not in `pending/`. -/
theorem C9_join_overwrite_witness :
    wGet (handle_new_worker sWork { type := "JOIN", msg := "55000" }).1.workers
        "55000" =
      some { worker_id := "55000", current_task_file := "", status := "idle",
             request_infos := [] } ∧
    (handle_new_worker sWork { type := "JOIN", msg := "55000" }).1.dirs =
      sWork.dirs := by
  have h := C9_join_overwrite sWork "55000" wWork (by decide)
  exact ⟨h.1, h.2.2.1⟩

/-! ## C10 -/

/-- C10: on a timer tick with `pending/` and `working/` both empty —
regardless of any history, so also on the very first tick of a Master
started with empty directories — the handler enqueues the internal
`COMPLETED` event and sends no health checks. -/
theorem C10_completion_tick (fresh : Nat → String) (now : Nat) (s : MasterState)
    (hp : s.dirs.pending = []) (hw : s.dirs.working = []) :
    (handle_timer_event fresh now s).1.message_queue =
      s.message_queue ++ [{ type := "COMPLETED", msg := "" }] ∧
    (handle_timer_event fresh now s).2 = [] := by
  unfold handle_timer_event
  rw [if_pos (by rw [hp, hw]; rfl)]
  exact ⟨rfl, rfl⟩

/-- C10, witness: a Master started with empty task directories, no
workers and an empty queue — its first tick enqueues `COMPLETED` and
sends nothing, though no task was ever assigned. -/
theorem C10_completion_tick_witness :
    (handle_timer_event (fun _ => "check_1000") 10
        { workers := [],
          dirs := { pending := [], working := [], done := [], failed := [] },
          message_queue := [] }).1.message_queue =
      [{ type := "COMPLETED", msg := "" }] ∧
    (handle_timer_event (fun _ => "check_1000") 10
        { workers := [],
          dirs := { pending := [], working := [], done := [], failed := [] },
          message_queue := [] }).2 = [] :=
  C10_completion_tick (fun _ => "check_1000") 10
    { workers := [],
      dirs := { pending := [], working := [], done := [], failed := [] },
      message_queue := [] } rfl rfl

/-! ## C4 -/

/-- C4: the spec's framing law says every message is terminated by a
single `\n`, and the claim extends this to the Master's `JOIN_ACK`,
`CHECK` and `REQUEST` sends.  The code violates it: those three sends
write `json.dumps(...)` with no terminator (their last byte is `}`),
while every Worker send does append the `\n` its own reader requires.
This theorem exhibits the divergence on the literal messages. -/
theorem C4_master_sends_unterminated :
    (master_send_payload { type := "JOIN_ACK", msg := "" }).getLast? = some '}' ∧
    (master_send_payload
      { type := "CHECK", msg := "", req_id := some "check_1234" }).getLast? =
        some '}' ∧
    (master_send_payload
      { type := "REQUEST", msg := "hello", req_id := some "task_1234" }).getLast? =
        some '}' ∧
    (worker_send_payload
      { type := "CHECK_ACK", msg := "", req_id := some "check_1234" }).getLast? =
        some '\n' := by
  refine ⟨?_, ?_, ?_, ?_⟩ <;> rfl

/-! ## C3 -/

/-- C3: for a `DONE` (resp. `FAILED`) from a known worker, the name
moved is the scheduler-recorded `current_task_file` — the report's
`msg` is immaterial — from `working/` to `done/` (resp. `failed/`)
when present, a no-op otherwise; the worker becomes `idle` with the
assignment cleared in every case. -/
theorem C3_completion (s : MasterState) (wid : String) (w : WorkerObject)
    (rt : String) (reportMsg : String)
    (hw : wGet s.workers wid = some w)
    (hrt : rt = "DONE" ∨ rt = "FAILED")
    (hnd : s.dirs.working.Nodup) :
    handle_worker_message s wid { type := rt, msg := reportMsg } =
      handle_task_completion s wid rt ∧
    wGet (handle_task_completion s wid rt).workers wid =
      some { w with status := "idle", current_task_file := "" } ∧
    (w.current_task_file ∈ s.dirs.working →
      w.current_task_file ∉ (handle_task_completion s wid rt).dirs.working ∧
      (rt = "DONE" →
        w.current_task_file ∈ (handle_task_completion s wid rt).dirs.done) ∧
      (rt = "FAILED" →
        w.current_task_file ∈ (handle_task_completion s wid rt).dirs.failed)) ∧
    (w.current_task_file ∉ s.dirs.working →
      (handle_task_completion s wid rt).dirs = s.dirs) := by
  have hne1 : ¬ rt = "REQUEST_ACK" := by
    rcases hrt with h | h <;> rw [h] <;> decide
  have hdisp : handle_worker_message s wid { type := rt, msg := reportMsg } =
      handle_task_completion s wid rt := by
    unfold handle_worker_message
    rw [hw]
    dsimp only
    rw [if_neg hne1, if_pos hrt]
  have hworkers : (handle_task_completion s wid rt).workers =
      wUpdate s.workers wid
        (fun w => { w with status := "idle", current_task_file := "" }) := by
    unfold handle_task_completion
    rw [hw]
    dsimp only
    split_ifs <;> rfl
  have hdirs : (handle_task_completion s wid rt).dirs =
      (if w.current_task_file ∈ s.dirs.working then
        (if rt = "DONE" then
          { s.dirs with
              working := s.dirs.working.erase w.current_task_file
              done := dirInsert s.dirs.done w.current_task_file }
        else
          { s.dirs with
              working := s.dirs.working.erase w.current_task_file
              failed := dirInsert s.dirs.failed w.current_task_file })
      else s.dirs) := by
    unfold handle_task_completion
    rw [hw]
    dsimp only
    split_ifs <;> rfl
  refine ⟨hdisp, ?_, ?_, ?_⟩
  · rw [hworkers, wGet_wUpdate_self, hw]
    rfl
  · intro hmem
    rw [hdirs, if_pos hmem]
    refine ⟨?_, ?_, ?_⟩
    · split_ifs <;> exact hnd.not_mem_erase
    · intro h
      rw [if_pos h]
      simp only [dirInsert]
      by_cases hm : w.current_task_file ∈ s.dirs.done <;> simp [hm]
    · intro h
      have : ¬ rt = "DONE" := by
        rw [h]; decide
      rw [if_neg this]
      simp only [dirInsert]
      by_cases hm : w.current_task_file ∈ s.dirs.failed <;> simp [hm]
  · intro hmem
    rw [hdirs, if_neg hmem]

/-- C3, witness on `sWork`: a `DONE` whose `msg` is an unrelated name
still moves the recorded `t001.txt` to `done/` and idles the worker. -/
theorem C3_completion_witness :
    handle_worker_message sWork "55000" { type := "DONE", msg := "whatever" } =
      handle_task_completion sWork "55000" "DONE" ∧
    wGet (handle_task_completion sWork "55000" "DONE").workers "55000" =
      some { worker_id := "55000", current_task_file := "",
             status := "idle", request_infos := [] } ∧
    "t001.txt" ∈ (handle_task_completion sWork "55000" "DONE").dirs.done := by
  have h := C3_completion sWork "55000" wWork "DONE" "whatever" (by decide)
    (Or.inl rfl) (by decide)
  refine ⟨h.1, ?_, (h.2.2.1 (by decide)).2.1 rfl⟩
  rw [h.2.1]
  decide

/-! ## C8 -/

theorem dispatch_frames_append (now : Nat) (st : WorkerLoopState)
    (a b : List WireMsg) :
    dispatch_frames now st (a ++ b) =
      ((dispatch_frames now (dispatch_frames now st a).1 b).1,
        (dispatch_frames now st a).2 ++
          (dispatch_frames now (dispatch_frames now st a).1 b).2) := by
  induction a generalizing st with
  | nil => simp [dispatch_frames]
  | cons m rest ih =>
    simp only [List.cons_append, dispatch_frames, List.append_eq, ih,
      List.append_assoc]

/-- C8: a dispatched `CHECK` is answered synchronously — the handler
itself returns the `CHECK_ACK` echoing the req_id and nothing else —
and in any main-loop pass the ack is written after the outputs of the
frames dispatched before it and before the outputs of every later
frame and before every task result of that pass, whatever the
supervisor is doing (arbitrary loop state and pending results). -/
theorem C8_check_ack_ordering (now : Nat) (st : WorkerLoopState)
    (pre post : List WireMsg) (rid : Option String)
    (results : List SupResult) :
    handle_master_message now st { type := "CHECK", msg := "", req_id := rid } =
      (st, [{ type := "CHECK_ACK", msg := "", req_id := rid }]) ∧
    (worker_loop_pass now st
        (pre ++ { type := "CHECK", msg := "", req_id := rid } :: post)
        results).2 =
      (dispatch_frames now st pre).2 ++
        { type := "CHECK_ACK", msg := "", req_id := rid } ::
          ((dispatch_frames now (dispatch_frames now st pre).1 post).2 ++
            process_claude_results st.worker_id results) := by
  constructor
  · rfl
  · show (dispatch_frames now st
        (pre ++ { type := "CHECK", msg := "", req_id := rid } :: post)).2 ++
          process_claude_results st.worker_id results = _
    rw [dispatch_frames_append]
    have hstep : dispatch_frames now (dispatch_frames now st pre).1
        ({ type := "CHECK", msg := "", req_id := rid } :: post) =
        ((dispatch_frames now (dispatch_frames now st pre).1 post).1,
          { type := "CHECK_ACK", msg := "", req_id := rid } ::
            (dispatch_frames now (dispatch_frames now st pre).1 post).2) := by
      rfl
    rw [hstep]
    simp [List.append_assoc]

/-! ## C6 -/

/-- Master state with `t001.txt` queued and one idle worker. -/
def sIdle : MasterState :=
  { workers := [("55000", { worker_id := "55000" })],
    dirs := { pending := ["t001.txt"], working := [], done := [], failed := [] },
    message_queue := [] }

/-- The supervisor inbox entry produced by dispatching the `REQUEST`
of the C6 scenario. -/
def smC6 : SupMsg :=
  { type := "REQUEST", msg := "hello", req_id := some "r1",
    task_filename := "task_r1" }

/-- C6, counterexample: assigning `t001.txt` (content `"hello"`, fresh
req_id `r1`) records `t001.txt` at the Master but sends a `REQUEST`
carrying only the prompt; the worker dispatching it synthesizes
`task_filename = "task_r1"`, and its eventual `DONE` report carries
`msg = "task_r1"` — not the assigned file name `t001.txt` the claim
asserts. -/
theorem C6_counterexample :
    (process_pending_tasks (fun f => if f = "t001.txt" then "hello" else "")
        (fun _ => "r1") 10 sIdle).2 =
      [("55000", { type := "REQUEST", msg := "hello", req_id := some "r1" })] ∧
    wGet (process_pending_tasks (fun f => if f = "t001.txt" then "hello" else "")
        (fun _ => "r1") 10 sIdle).1.workers "55000" =
      some { worker_id := "55000", current_task_file := "t001.txt",
             status := "requesting",
             request_infos := [{ request_id := "r1", timeout_time := 13 }] } ∧
    (handle_master_message 10 { worker_id := "55000" }
        { type := "REQUEST", msg := "hello", req_id := some "r1" }).1.inbox =
      [smC6] ∧
    send_task_result "55000" (supervisor_result smC6 "DONE") =
      { type := "DONE", msg := "task_r1" } ∧
    "task_r1" ≠ "t001.txt" := by
  refine ⟨?_, ?_, ?_, ?_, ?_⟩ <;> decide

/-- C6, amended: the `msg` of a `DONE`/`FAILED` report is the
supervisor-supplied `task_filename`, which the protocol loop
synthesizes as `task_<req_id>` when it enqueues the request — the
worker is never told the real file name; the `USAGE_LIMITED` part of
the claim holds: its `msg` is the worker-id. -/
theorem C6_amended (now : Nat) (st : WorkerLoopState) (m : WireMsg)
    (wid : String) (sm : SupMsg) (rt : String)
    (hm : m.type = "REQUEST") (hrt : rt = "DONE" ∨ rt = "FAILED") :
    (handle_master_message now st m).1.inbox =
      st.inbox ++ [{ type := "REQUEST", msg := m.msg, req_id := m.req_id,
                     task_filename := "task_" ++ fstrOpt m.req_id }] ∧
    send_task_result wid (supervisor_result sm rt) =
      { type := rt, msg := sm.task_filename } ∧
    send_task_result wid (supervisor_result sm "USAGE_LIMITED") =
      { type := "USAGE_LIMITED", msg := wid } := by
  refine ⟨?_, ?_, rfl⟩
  · unfold handle_master_message
    rw [hm]
    rw [if_neg (by decide), if_pos rfl]
  · unfold send_task_result supervisor_result
    rw [if_neg (by rcases hrt with h | h <;> rw [h] <;> simp)]

/-- C6, witness for the amended theorem on the concrete scenario. -/
theorem C6_amended_witness :
    (handle_master_message 10 { worker_id := "55000" }
        { type := "REQUEST", msg := "hello", req_id := some "r1" }).1.inbox =
      [{ type := "REQUEST", msg := "hello", req_id := some "r1",
         task_filename := "task_" ++ fstrOpt (some "r1") }] ∧
    send_task_result "55000" (supervisor_result smC6 "DONE") =
      { type := "DONE", msg := smC6.task_filename } := by
  have h := C6_amended 10 { worker_id := "55000" }
    { type := "REQUEST", msg := "hello", req_id := some "r1" }
    "55000" smC6 "DONE" rfl (Or.inl rfl)
  exact ⟨h.1, h.2.1⟩

/-! ## C7 -/

/-- A `DONE` report whose `msg` contains a brace. -/
def mBrace : List (List Char × List Char) :=
  [("type".data, "DONE".data), ("msg".data, "\x7b".data)]

/-- A plain `DONE` report. -/
def mPlain : List (List Char × List Char) :=
  [("type".data, "DONE".data), ("msg".data, "b".data)]

/-- Hexadecimal digits round-trip and are ordinary characters. -/
theorem hexDigitCh_facts : ∀ m < 16, hexVal (hexDigitCh m) = some m ∧
    hexDigitCh m ≠ '\n' ∧ hexDigitCh m ≠ '{' ∧ hexDigitCh m ≠ '}' := by
  decide

/-- `json.dumps` never emits a raw newline: every raw `'\n'` in the
content is escaped. -/
theorem nl_not_mem_escChar (c : Char) : '\n' ∉ escChar c := by
  unfold escChar
  split_ifs with h1 h2 h3 h4 h5 h6 h7 h8
  · decide
  · decide
  · decide
  · decide
  · decide
  · decide
  · decide
  · have d1 : c.toNat / 16 < 16 := by omega
    have d2 : c.toNat % 16 < 16 := by omega
    simp only [List.mem_cons, List.not_mem_nil, or_false]
    push_neg
    refine ⟨by decide, by decide, by decide, by decide, ?_, ?_⟩
    · exact fun h => (hexDigitCh_facts _ d1).2.1 h.symm
    · exact fun h => (hexDigitCh_facts _ d2).2.1 h.symm
  · simp only [List.mem_singleton]
    exact fun h => h3 h.symm

/-- A brace appears in an escaped character only when the character is
that brace itself. -/
theorem brace_not_mem_escChar (c d : Char) (hd : d = '{' ∨ d = '}')
    (hne : d ≠ c) : d ∉ escChar c := by
  have hb : ∀ e : Char, (e = '{' ∨ e = '}') →
      e ≠ '"' ∧ e ≠ '\\' ∧ e ≠ 'n' ∧ e ≠ 't' ∧ e ≠ 'r' ∧ e ≠ 'b' ∧
        e ≠ 'f' ∧ e ≠ 'u' ∧ e ≠ '0' := by
    rintro e (rfl | rfl) <;> refine ⟨?_, ?_, ?_, ?_, ?_, ?_, ?_, ?_, ?_⟩ <;> decide
  obtain ⟨n1, n2, n3, n4, n5, n6, n7, n8, n9⟩ := hb d hd
  unfold escChar
  split_ifs with h1 h2 h3 h4 h5 h6 h7 h8
  · simp [n1, n2]
  · simp [n2]
  · simp [n2, n3]
  · simp [n2, n4]
  · simp [n2, n5]
  · simp [n2, n6]
  · simp [n2, n7]
  · have d1 : c.toNat / 16 < 16 := by omega
    have d2 : c.toNat % 16 < 16 := by omega
    simp only [List.mem_cons, List.not_mem_nil, or_false]
    push_neg
    refine ⟨n2, n8, n9, n9, ?_, ?_⟩
    · intro h
      rcases hd with rfl | rfl
      · exact (hexDigitCh_facts _ d1).2.2.1 h.symm
      · exact (hexDigitCh_facts _ d1).2.2.2 h.symm
    · intro h
      rcases hd with rfl | rfl
      · exact (hexDigitCh_facts _ d2).2.2.1 h.symm
      · exact (hexDigitCh_facts _ d2).2.2.2 h.symm
  · simp [hne]

/-- The messages whose string content never mentions a brace; only for
these does the legacy brace-counting splitter recover boundaries. -/
def braceFree (M : List (List Char × List Char)) : Prop :=
  ∀ p ∈ M, '{' ∉ p.1 ∧ '}' ∉ p.1 ∧ '{' ∉ p.2 ∧ '}' ∉ p.2

instance (M : List (List Char × List Char)) : Decidable (braceFree M) := by
  unfold braceFree
  infer_instance

theorem mem_quoteStr (s : List Char) (d : Char) (h : d ∈ quoteStr s) :
    d = '"' ∨ ∃ c ∈ s, d ∈ escChar c := by
  rcases List.mem_cons.mp h with h | h
  · exact Or.inl h
  · rcases List.mem_append.mp h with h | h
    · rcases List.mem_flatten.mp h with ⟨l, hl, hd⟩
      rcases List.mem_map.mp hl with ⟨c, hc, rfl⟩
      exact Or.inr ⟨c, hc, hd⟩
    · exact Or.inl (List.mem_singleton.mp h)

theorem mem_memberStr (p : List Char × List Char) (d : Char)
    (h : d ∈ memberStr p) :
    d ∈ quoteStr p.1 ∨ d = ':' ∨ d = ' ' ∨ d ∈ quoteStr p.2 := by
  rcases List.mem_append.mp h with h | h
  · exact Or.inl h
  · rcases List.mem_cons.mp h with h | h
    · exact Or.inr (Or.inl h)
    · rcases List.mem_cons.mp h with h | h
      · exact Or.inr (Or.inr (Or.inl h))
      · exact Or.inr (Or.inr (Or.inr h))

theorem mem_membersStr (M : List (List Char × List Char)) (d : Char)
    (h : d ∈ membersStr M) :
    d = ',' ∨ d = ' ' ∨ ∃ p ∈ M, d ∈ memberStr p := by
  induction M with
  | nil => simp [membersStr] at h
  | cons p t ih =>
    cases t with
    | nil => exact Or.inr (Or.inr ⟨p, List.mem_cons_self p [], h⟩)
    | cons q t' =>
      rcases List.mem_append.mp h with h | h
      · exact Or.inr (Or.inr ⟨p, List.mem_cons_self p _, h⟩)
      · rcases List.mem_cons.mp h with h | h
        · exact Or.inl h
        · rcases List.mem_cons.mp h with h | h
          · exact Or.inr (Or.inl h)
          · rcases ih h with h | h | ⟨r, hr, hdr⟩
            · exact Or.inl h
            · exact Or.inr (Or.inl h)
            · exact Or.inr (Or.inr ⟨r, List.mem_cons_of_mem p hr, hdr⟩)

theorem mem_jsonDumps (M : List (List Char × List Char)) (d : Char)
    (h : d ∈ jsonDumps M) :
    d = '{' ∨ d = '}' ∨ d ∈ membersStr M := by
  rcases List.mem_cons.mp h with h | h
  · exact Or.inl h
  · rcases List.mem_append.mp h with h | h
    · exact Or.inr (Or.inr h)
    · exact Or.inr (Or.inl (List.mem_singleton.mp h))

theorem nl_not_mem_jsonDumps (M : List (List Char × List Char)) :
    '\n' ∉ jsonDumps M := by
  intro h
  rcases mem_jsonDumps M '\n' h with h | h | h
  · exact absurd h (by decide)
  · exact absurd h (by decide)
  · rcases mem_membersStr M '\n' h with h | h | ⟨p, -, hp⟩
    · exact absurd h (by decide)
    · exact absurd h (by decide)
    · rcases mem_memberStr p '\n' hp with h | h | h | h
      · rcases mem_quoteStr _ '\n' h with h | ⟨c, -, hc⟩
        · exact absurd h (by decide)
        · exact nl_not_mem_escChar c hc
      · exact absurd h (by decide)
      · exact absurd h (by decide)
      · rcases mem_quoteStr _ '\n' h with h | ⟨c, -, hc⟩
        · exact absurd h (by decide)
        · exact nl_not_mem_escChar c hc

theorem brace_not_mem_membersStr (M : List (List Char × List Char))
    (d : Char) (hd : d = '{' ∨ d = '}') (hbf : braceFree M) :
    d ∉ membersStr M := by
  intro h
  rcases mem_membersStr M d h with h | h | ⟨p, hp, hdp⟩
  · rcases hd with rfl | rfl <;> exact absurd h (by decide)
  · rcases hd with rfl | rfl <;> exact absurd h (by decide)
  · have hb := hbf p hp
    rcases mem_memberStr p d hdp with h | h | h | h
    · rcases mem_quoteStr _ d h with h | ⟨c, hcs, hc⟩
      · rcases hd with rfl | rfl <;> exact absurd h (by decide)
      · have hne : d ≠ c := by
          rintro rfl
          rcases hd with rfl | rfl
          · exact hb.1 hcs
          · exact hb.2.1 hcs
        exact brace_not_mem_escChar c d hd hne hc
    · rcases hd with rfl | rfl <;> exact absurd h (by decide)
    · rcases hd with rfl | rfl <;> exact absurd h (by decide)
    · rcases mem_quoteStr _ d h with h | ⟨c, hcs, hc⟩
      · rcases hd with rfl | rfl <;> exact absurd h (by decide)
      · have hne : d ≠ c := by
          rintro rfl
          rcases hd with rfl | rfl
          · exact hb.2.2.1 hcs
          · exact hb.2.2.2 hcs
        exact brace_not_mem_escChar c d hd hne hc

theorem dropWhile_eq_self_of_head (p : Char → Bool) (l : List Char) (c : Char)
    (h : l.head? = some c) (hc : p c = false) : l.dropWhile p = l := by
  cases l with
  | nil => simp at h
  | cons a t =>
    simp only [List.head?_cons, Option.some.injEq] at h
    subst h
    simp [List.dropWhile_cons, hc]

theorem pyStrip_eq_self (l : List Char) (h1 : l.head? = some '{')
    (h2 : l.getLast? = some '}') : pyStrip l = l := by
  unfold pyStrip
  rw [dropWhile_eq_self_of_head isPyWs l '{' h1 (by decide)]
  rw [dropWhile_eq_self_of_head isPyWs l.reverse '}'
    (by rw [List.head?_reverse]; exact h2) (by decide)]
  exact List.reverse_reverse l

theorem pyStrip_append_nl (l : List Char) (h1 : l.head? = some '{')
    (h2 : l.getLast? = some '}') : pyStrip (l ++ ['\n']) = l := by
  unfold pyStrip
  have hh : (l ++ ['\n']).head? = some '{' := by
    cases l with
    | nil => simp at h1
    | cons a t => simpa using h1
  rw [dropWhile_eq_self_of_head isPyWs (l ++ ['\n']) '{' hh (by decide)]
  rw [List.reverse_append]
  show ((['\n'].reverse ++ l.reverse).dropWhile isPyWs).reverse = l
  rw [List.reverse_singleton]
  show ((['\n'] ++ l.reverse).dropWhile isPyWs).reverse = l
  rw [List.singleton_append, List.dropWhile_cons]
  simp only [show isPyWs '\n' = true from rfl, if_true]
  rw [dropWhile_eq_self_of_head isPyWs l.reverse '}'
    (by rw [List.head?_reverse]; exact h2) (by decide)]
  exact List.reverse_reverse l

theorem splitOnNl_of_not_mem (l : List Char) (h : '\n' ∉ l) :
    splitOnNl l = [l] := by
  induction l with
  | nil => rfl
  | cons c t ih =>
    have hc : ¬ c = '\n' := fun hh => h (hh ▸ List.mem_cons_self c t)
    have ht : '\n' ∉ t := fun hh => h (List.mem_cons_of_mem c hh)
    simp only [splitOnNl, if_neg hc, ih ht]

theorem splitOnNl_append (a b : List Char) (ha : '\n' ∉ a) :
    splitOnNl (a ++ '\n' :: b) = a :: splitOnNl b := by
  induction a with
  | nil => simp [splitOnNl]
  | cons c t ih =>
    have hc : ¬ c = '\n' := fun hh => ha (hh ▸ List.mem_cons_self c t)
    have ht : '\n' ∉ t := fun hh => ha (List.mem_cons_of_mem c hh)
    simp only [List.cons_append, splitOnNl, if_neg hc, List.append_eq, ih ht]

theorem psb_quote (r : List Char) : parseStringBody ('"' :: r) = some ([], r) := by
  rw [parseStringBody.eq_def]
  dsimp only
  rw [if_pos rfl]

theorem psb_esc (e d : Char) (r : List Char) (hu : ¬ e = 'u')
    (hd : escCode e = some d) :
    parseStringBody ('\\' :: e :: r) =
      (parseStringBody r).map (fun p => (d :: p.1, p.2)) := by
  rw [parseStringBody.eq_def]
  dsimp only
  rw [if_neg (by decide), if_pos rfl, if_neg hu, hd]

theorem psb_u (e1 e2 e3 e4 : Char) (r : List Char) :
    parseStringBody ('\\' :: 'u' :: e1 :: e2 :: e3 :: e4 :: r) =
      (match hexVal e1, hexVal e2, hexVal e3, hexVal e4 with
       | some a, some b, some cc, some d =>
         if ((a * 16 + b) * 16 + cc) * 16 + d < 0xd800 ∨
             0xe000 ≤ ((a * 16 + b) * 16 + cc) * 16 + d then
           (parseStringBody r).map
             (fun p => (Char.ofNat (((a * 16 + b) * 16 + cc) * 16 + d) :: p.1, p.2))
         else none
       | _, _, _, _ => none) := by
  rw [parseStringBody.eq_def]
  dsimp only
  rw [if_neg (by decide), if_pos rfl, if_pos rfl]

theorem psb_plain (c : Char) (r : List Char) (h1 : ¬ c = '"') (h2 : ¬ c = '\\')
    (h8 : ¬ c.toNat < 0x20) :
    parseStringBody (c :: r) =
      (parseStringBody r).map (fun p => (c :: p.1, p.2)) := by
  rw [parseStringBody.eq_def]
  dsimp only
  rw [if_neg h1, if_neg h2, if_neg h8]

/-- The string-literal parser inverts the escaper: reading an escaped
body up to its closing quote recovers the original content. -/
theorem parseStringBody_escBody (s rest : List Char) :
    parseStringBody (escBody s ++ '"' :: rest) = some (s, rest) := by
  induction s with
  | nil =>
    rw [show escBody [] = [] from rfl, List.nil_append]
    exact psb_quote rest
  | cons c t ih =>
    have hesc : escBody (c :: t) = escChar c ++ escBody t := by
      simp [escBody]
    rw [hesc, List.append_assoc]
    by_cases h1 : c = '"'
    · subst h1
      rw [show escChar '"' = ['\\', '"'] from rfl]
      rw [show (['\\', '"'] : List Char) ++ (escBody t ++ '"' :: rest) =
        '\\' :: '"' :: (escBody t ++ '"' :: rest) from rfl]
      rw [psb_esc '"' '"' _ (by decide) (by decide), ih]
      rfl
    · by_cases h2 : c = '\\'
      · subst h2
        rw [show escChar '\\' = ['\\', '\\'] from rfl]
        rw [show (['\\', '\\'] : List Char) ++ (escBody t ++ '"' :: rest) =
          '\\' :: '\\' :: (escBody t ++ '"' :: rest) from rfl]
        rw [psb_esc '\\' '\\' _ (by decide) (by decide), ih]
        rfl
      · by_cases h3 : c = '\n'
        · subst h3
          rw [show escChar '\n' = ['\\', 'n'] from rfl]
          rw [show (['\\', 'n'] : List Char) ++ (escBody t ++ '"' :: rest) =
            '\\' :: 'n' :: (escBody t ++ '"' :: rest) from rfl]
          rw [psb_esc 'n' '\n' _ (by decide) (by decide), ih]
          rfl
        · by_cases h4 : c = '\t'
          · subst h4
            rw [show escChar '\t' = ['\\', 't'] from rfl]
            rw [show (['\\', 't'] : List Char) ++ (escBody t ++ '"' :: rest) =
              '\\' :: 't' :: (escBody t ++ '"' :: rest) from rfl]
            rw [psb_esc 't' '\t' _ (by decide) (by decide), ih]
            rfl
          · by_cases h5 : c = '\x0d'
            · subst h5
              rw [show escChar '\x0d' = ['\\', 'r'] from rfl]
              rw [show (['\\', 'r'] : List Char) ++ (escBody t ++ '"' :: rest) =
                '\\' :: 'r' :: (escBody t ++ '"' :: rest) from rfl]
              rw [psb_esc 'r' '\x0d' _ (by decide) (by decide), ih]
              rfl
            · by_cases h6 : c = '\x08'
              · subst h6
                rw [show escChar '\x08' = ['\\', 'b'] from rfl]
                rw [show (['\\', 'b'] : List Char) ++ (escBody t ++ '"' :: rest) =
                  '\\' :: 'b' :: (escBody t ++ '"' :: rest) from rfl]
                rw [psb_esc 'b' '\x08' _ (by decide) (by decide), ih]
                rfl
              · by_cases h7 : c = '\x0c'
                · subst h7
                  rw [show escChar '\x0c' = ['\\', 'f'] from rfl]
                  rw [show (['\\', 'f'] : List Char) ++ (escBody t ++ '"' :: rest) =
                    '\\' :: 'f' :: (escBody t ++ '"' :: rest) from rfl]
                  rw [psb_esc 'f' '\x0c' _ (by decide) (by decide), ih]
                  rfl
                · by_cases h8 : c.toNat < 0x20
                  · have hesc2 : escChar c =
                        ['\\', 'u', '0', '0', hexDigitCh (c.toNat / 16),
                          hexDigitCh (c.toNat % 16)] := by
                      simp [escChar, h1, h2, h3, h4, h5, h6, h7, h8]
                    have hv1 : hexVal (hexDigitCh (c.toNat / 16)) =
                        some (c.toNat / 16) := (hexDigitCh_facts _ (by omega)).1
                    have hv2 : hexVal (hexDigitCh (c.toNat % 16)) =
                        some (c.toNat % 16) := (hexDigitCh_facts _ (by omega)).1
                    rw [hesc2]
                    rw [show (['\\', 'u', '0', '0', hexDigitCh (c.toNat / 16),
                        hexDigitCh (c.toNat % 16)] : List Char) ++
                        (escBody t ++ '"' :: rest) =
                      '\\' :: 'u' :: '0' :: '0' :: hexDigitCh (c.toNat / 16) ::
                        hexDigitCh (c.toNat % 16) ::
                          (escBody t ++ '"' :: rest) from rfl]
                    rw [psb_u]
                    rw [show hexVal '0' = some 0 from by decide, hv1, hv2]
                    dsimp only
                    rw [if_pos (Or.inl (by omega))]
                    rw [ih]
                    have hc : Char.ofNat (((0 * 16 + 0) * 16 + c.toNat / 16) * 16 +
                        c.toNat % 16) = c := by
                      rw [show ((0 * 16 + 0) * 16 + c.toNat / 16) * 16 +
                        c.toNat % 16 = c.toNat from by omega]
                      exact Char.ofNat_toNat c
                    rw [hc]
                    rfl
                  · have hesc2 : escChar c = [c] := by
                      simp [escChar, h1, h2, h3, h4, h5, h6, h7, h8]
                    rw [hesc2, List.singleton_append,
                      psb_plain c _ h1 h2 h8, ih]
                    rfl

theorem skipWs_cons_not (c : Char) (r : List Char) (h : isJsonWs c = false) :
    skipWs (c :: r) = c :: r := by
  simp [skipWs, List.dropWhile_cons, h]

theorem skipWs_cons_ws (c : Char) (r : List Char) (h : isJsonWs c = true) :
    skipWs (c :: r) = skipWs r := by
  simp [skipWs, List.dropWhile_cons, h]

theorem parseMembers_member (fuel : Nat) (k v : List Char) (tail : List Char) :
    parseMembers (fuel + 1) (memberStr (k, v) ++ tail) =
      (match skipWs tail with
       | [] => none
       | c4 :: r5 =>
         if c4 = ',' then
           (match parseMembers fuel (skipWs r5) with
            | some (ps, rest) => some ((k, v) :: ps, rest)
            | none => none)
         else if c4 = '}' then some ([(k, v)], r5)
         else none) := by
  have h0 : memberStr (k, v) ++ tail =
      '"' :: (escBody k ++ '"' ::
        (':' :: ' ' :: ('"' :: (escBody v ++ '"' :: tail)))) := by
    simp [memberStr, quoteStr, List.append_assoc]
  rw [h0]
  rw [parseMembers.eq_def]
  dsimp only
  rw [if_pos rfl, parseStringBody_escBody]
  dsimp only
  rw [skipWs_cons_not ':' _ (by decide)]
  dsimp only
  rw [if_pos rfl, skipWs_cons_ws ' ' _ (by decide),
    skipWs_cons_not '"' _ (by decide)]
  dsimp only
  rw [if_pos rfl, parseStringBody_escBody]

/-- The member parser inverts the member printer. -/
theorem parseMembers_inv (ps : List (List Char × List Char)) (rest : List Char)
    (fuel : Nat) (hne : ps ≠ []) (hf : ps.length ≤ fuel) :
    parseMembers fuel (membersStr ps ++ '}' :: rest) = some (ps, rest) := by
  induction ps generalizing fuel rest with
  | nil => cases hne rfl
  | cons p t ih =>
    obtain ⟨f, rfl⟩ : ∃ f, fuel = f + 1 :=
      ⟨fuel - 1, by have := hf; simp at this; omega⟩
    obtain ⟨k, v⟩ := p
    cases t with
    | nil =>
      rw [show membersStr [(k, v)] = memberStr (k, v) from rfl]
      rw [parseMembers_member f k v ('}' :: rest)]
      rw [skipWs_cons_not '}' _ (by decide)]
      dsimp only
      rw [if_neg (by decide), if_pos rfl]
    | cons q t' =>
      have hms : membersStr ((k, v) :: q :: t') ++ '}' :: rest =
          memberStr (k, v) ++
            (',' :: ' ' :: (membersStr (q :: t') ++ '}' :: rest)) := by
        rw [show membersStr ((k, v) :: q :: t') =
          memberStr (k, v) ++ ',' :: ' ' :: membersStr (q :: t') from rfl]
        simp [List.append_assoc]
      rw [hms]
      rw [parseMembers_member f k v _]
      rw [skipWs_cons_not ',' _ (by decide)]
      dsimp only
      rw [if_pos rfl]
      rw [skipWs_cons_ws ' ' _ (by decide)]
      have hhead : ∃ tl, membersStr (q :: t') ++ '}' :: rest = '"' :: tl := by
        obtain ⟨k2, v2⟩ := q
        cases t' with
        | nil =>
          refine ⟨escBody k2 ++ '"' :: ':' :: ' ' :: '"' ::
            (escBody v2 ++ '"' :: '}' :: rest), ?_⟩
          simp [membersStr, memberStr, quoteStr, List.append_assoc]
        | cons r' t'' =>
          refine ⟨escBody k2 ++ '"' :: ':' :: ' ' :: '"' ::
            (escBody v2 ++ '"' :: ',' :: ' ' ::
              (membersStr (r' :: t'') ++ '}' :: rest)), ?_⟩
          rw [show membersStr ((k2, v2) :: r' :: t'') =
            memberStr (k2, v2) ++ ',' :: ' ' :: membersStr (r' :: t'') from rfl]
          simp [memberStr, quoteStr, List.append_assoc]
      obtain ⟨tl, htl⟩ := hhead
      rw [htl, skipWs_cons_not '"' _ (by decide), ← htl]
      have hf' : (q :: t').length ≤ f := by
        simp only [List.length_cons] at hf ⊢
        omega
      rw [ih rest f (by simp) hf']

theorem dictFold_eq_append (ps : List (List Char × List Char)) :
    ∀ acc : List (List Char × List Char),
    (ps.map Prod.fst).Nodup →
    (∀ k ∈ acc.map Prod.fst, k ∉ ps.map Prod.fst) →
    ps.foldl (fun d p => dictInsert d p.1 p.2) acc = acc ++ ps := by
  induction ps with
  | nil => intro acc _ _; simp
  | cons p t ih =>
    intro acc hnd hdis
    obtain ⟨k, v⟩ := p
    simp only [List.map_cons, List.nodup_cons] at hnd
    have hk : k ∉ acc.map Prod.fst := by
      intro hmem
      exact hdis k hmem (by simp)
    have hins : dictInsert acc k v = acc ++ [(k, v)] := by
      unfold dictInsert
      rw [if_neg]
      simp only [List.any_eq_true, decide_eq_true_eq, not_exists, not_and]
      intro q hq hqk
      exact hk (List.mem_map.mpr ⟨q, hq, hqk⟩)
    have hdis' : ∀ k2 ∈ (acc ++ [(k, v)]).map Prod.fst, k2 ∉ t.map Prod.fst := by
      intro k2 hk2
      simp only [List.map_append, List.mem_append] at hk2
      rcases hk2 with h | h
      · intro hmem
        exact hdis k2 h (by simp [hmem])
      · simp only [List.map_cons, List.map_nil, List.mem_singleton] at h
        subst h
        exact hnd.1
    simp only [List.foldl_cons, hins]
    rw [ih (acc ++ [(k, v)]) hnd.2 hdis']
    simp

theorem dictOfPairs_eq_self (ps : List (List Char × List Char))
    (hnd : (ps.map Prod.fst).Nodup) : dictOfPairs ps = ps := by
  unfold dictOfPairs
  rw [dictFold_eq_append ps [] hnd (by simp)]
  simp

theorem membersStr_length_ge (ps : List (List Char × List Char)) :
    ps.length ≤ (membersStr ps).length := by
  induction ps with
  | nil => simp [membersStr]
  | cons p t ih =>
    have hm : 0 < (memberStr p).length := by
      simp [memberStr, quoteStr]
    cases t with
    | nil => simpa [membersStr] using hm
    | cons q t' =>
      rw [show membersStr (p :: q :: t') =
        memberStr p ++ ',' :: ' ' :: membersStr (q :: t') from rfl]
      simp only [List.length_append, List.length_cons]
      simp only [List.length_cons] at ih ⊢
      omega

/-- `json.loads` inverts `json.dumps` (up to Python-dict collapsing of
duplicate keys). -/
theorem jsonLoads_jsonDumps (M : List (List Char × List Char)) :
    jsonLoads (jsonDumps M) = some (dictOfPairs M) := by
  cases M with
  | nil => decide
  | cons p t =>
    obtain ⟨k, v⟩ := p
    have hhead : ∃ tl, membersStr ((k, v) :: t) ++ ['}'] = '"' :: tl := by
      cases t with
      | nil =>
        refine ⟨escBody k ++ '"' :: ':' :: ' ' :: '"' ::
          (escBody v ++ '"' :: ['}']), ?_⟩
        simp [membersStr, memberStr, quoteStr, List.append_assoc]
      | cons q t' =>
        refine ⟨escBody k ++ '"' :: ':' :: ' ' :: '"' ::
          (escBody v ++ '"' :: ',' :: ' ' ::
            (membersStr (q :: t') ++ ['}'])), ?_⟩
        rw [show membersStr ((k, v) :: q :: t') =
          memberStr (k, v) ++ ',' :: ' ' :: membersStr (q :: t') from rfl]
        simp [memberStr, quoteStr, List.append_assoc]
    obtain ⟨tl, htl⟩ := hhead
    have hlen : (membersStr ((k, v) :: t)).length = tl.length := by
      have := congrArg List.length htl
      simp only [List.length_append, List.length_cons, List.length_singleton,
        List.length_nil] at this
      omega
    have hjd : jsonDumps ((k, v) :: t) =
        '{' :: (membersStr ((k, v) :: t) ++ ['}']) := rfl
    unfold jsonLoads
    rw [hjd, skipWs_cons_not '{' _ (by decide)]
    dsimp only
    rw [if_pos rfl]
    rw [htl, skipWs_cons_not '"' _ (by decide)]
    dsimp only
    rw [if_neg (by decide)]
    rw [← htl]
    rw [show membersStr ((k, v) :: t) ++ ['}'] =
      membersStr ((k, v) :: t) ++ '}' :: [] from rfl]
    rw [parseMembers_inv ((k, v) :: t) [] _ (by simp) ?_]
    · dsimp only
      rw [if_pos (show skipWs ([] : List Char) = [] from rfl)]
    · have h1 := membersStr_length_ge ((k, v) :: t)
      simp only [List.length_append, List.length_cons, List.length_singleton,
        List.length_nil] at h1 ⊢
      omega

/-- Two adjacent serialized objects do not parse as one: `json.loads`
rejects trailing data. -/
theorem jsonLoads_extra (M1 M2 : List (List Char × List Char)) :
    jsonLoads (jsonDumps M1 ++ jsonDumps M2) = none := by
  have hne : skipWs (jsonDumps M2) ≠ [] := by
    rw [show jsonDumps M2 = '{' :: (membersStr M2 ++ ['}']) from rfl]
    rw [skipWs_cons_not '{' _ (by decide)]
    simp
  cases M1 with
  | nil =>
    have h0 : jsonDumps ([] : List (List Char × List Char)) ++ jsonDumps M2 =
        '{' :: '}' :: jsonDumps M2 := by
      simp [jsonDumps, membersStr]
    unfold jsonLoads
    rw [h0, skipWs_cons_not '{' _ (by decide)]
    dsimp only
    rw [if_pos rfl, skipWs_cons_not '}' _ (by decide)]
    dsimp only
    rw [if_pos rfl, if_neg hne]
  | cons p t =>
    obtain ⟨k, v⟩ := p
    have hhead : ∃ tl, membersStr ((k, v) :: t) ++ '}' :: jsonDumps M2 =
        '"' :: tl := by
      cases t with
      | nil =>
        refine ⟨escBody k ++ '"' :: ':' :: ' ' :: '"' ::
          (escBody v ++ '"' :: '}' :: jsonDumps M2), ?_⟩
        simp [membersStr, memberStr, quoteStr, List.append_assoc]
      | cons q t' =>
        refine ⟨escBody k ++ '"' :: ':' :: ' ' :: '"' ::
          (escBody v ++ '"' :: ',' :: ' ' ::
            (membersStr (q :: t') ++ '}' :: jsonDumps M2)), ?_⟩
        rw [show membersStr ((k, v) :: q :: t') =
          memberStr (k, v) ++ ',' :: ' ' :: membersStr (q :: t') from rfl]
        simp [memberStr, quoteStr, List.append_assoc]
    obtain ⟨tl, htl⟩ := hhead
    have hlen : (membersStr ((k, v) :: t)).length + 1 + (jsonDumps M2).length =
        tl.length + 1 := by
      have := congrArg List.length htl
      simp only [List.length_append, List.length_cons, List.length_singleton,
        List.length_nil] at this
      omega
    have h0 : jsonDumps ((k, v) :: t) ++ jsonDumps M2 =
        '{' :: (membersStr ((k, v) :: t) ++ '}' :: jsonDumps M2) := by
      simp [jsonDumps, List.append_assoc]
    unfold jsonLoads
    rw [h0, skipWs_cons_not '{' _ (by decide)]
    dsimp only
    rw [if_pos rfl]
    rw [htl, skipWs_cons_not '"' _ (by decide)]
    dsimp only
    rw [if_neg (by decide)]
    rw [← htl]
    rw [parseMembers_inv ((k, v) :: t) (jsonDumps M2) _ (by simp) ?_]
    · dsimp only
      rw [if_neg hne]
    · have h1 := membersStr_length_ge ((k, v) :: t)
      simp only [List.length_append, List.length_cons, List.length_singleton,
        List.length_nil] at h1 ⊢
      omega

theorem sczGo_inner (inner rest cur : List Char)
    (h : ∀ c ∈ inner, c ≠ '{' ∧ c ≠ '}') :
    sczGo (inner ++ '}' :: rest) 1 cur =
      (cur.reverse ++ inner ++ ['}']) :: sczGo rest 0 [] := by
  induction inner generalizing cur with
  | nil =>
    rw [List.nil_append]
    rw [sczGo.eq_def]
    dsimp only
    rw [if_neg (by decide), if_pos rfl, if_pos (by decide)]
    simp
  | cons d t ih =>
    have hd := h d (List.mem_cons_self d t)
    have ht : ∀ c ∈ t, c ≠ '{' ∧ c ≠ '}' :=
      fun c hc => h c (List.mem_cons_of_mem d hc)
    rw [List.cons_append]
    rw [sczGo.eq_def]
    dsimp only
    rw [if_neg hd.1, if_neg hd.2]
    rw [ih (d :: cur) ht]
    simp

/-- On the adjacent concatenation of two brace-free serialized
objects, the brace splitter recovers exactly the two fragments. -/
theorem split_concat_two (M1 M2 : List (List Char × List Char))
    (h1 : braceFree M1) (h2 : braceFree M2) :
    split_concatenated_json (jsonDumps M1 ++ jsonDumps M2) =
      [jsonDumps M1, jsonDumps M2] := by
  have hm1 : ∀ c ∈ membersStr M1, c ≠ '{' ∧ c ≠ '}' := by
    intro c hc
    constructor
    · rintro rfl
      exact brace_not_mem_membersStr M1 '{' (Or.inl rfl) h1 hc
    · rintro rfl
      exact brace_not_mem_membersStr M1 '}' (Or.inr rfl) h1 hc
  have hm2 : ∀ c ∈ membersStr M2, c ≠ '{' ∧ c ≠ '}' := by
    intro c hc
    constructor
    · rintro rfl
      exact brace_not_mem_membersStr M2 '{' (Or.inl rfl) h2 hc
    · rintro rfl
      exact brace_not_mem_membersStr M2 '}' (Or.inr rfl) h2 hc
  have hshape : jsonDumps M1 ++ jsonDumps M2 =
      '{' :: (membersStr M1 ++ '}' :: jsonDumps M2) := by
    simp [jsonDumps, List.append_assoc]
  unfold split_concatenated_json
  rw [hshape]
  rw [sczGo.eq_def]
  dsimp only
  rw [if_pos rfl, show (0 : Int) + 1 = 1 from by norm_num]
  rw [sczGo_inner _ _ _ hm1]
  have hshape2 : jsonDumps M2 = '{' :: (membersStr M2 ++ '}' :: []) := by
    simp [jsonDumps]
  rw [hshape2]
  rw [sczGo.eq_def]
  dsimp only
  rw [if_pos rfl, show (0 : Int) + 1 = 1 from by norm_num]
  rw [sczGo_inner _ _ _ hm2]
  rw [show sczGo [] 0 [] = [] from by decide]
  simp [jsonDumps]

theorem head_dumps_append (M : List (List Char × List Char)) (Y : List Char) :
    (jsonDumps M ++ Y).head? = some '{' := rfl

theorem getLast_append_dumps (X : List Char) (M : List (List Char × List Char)) :
    (X ++ jsonDumps M).getLast? = some '}' := by
  rw [show X ++ jsonDumps M = (X ++ ('{' :: membersStr M)) ++ ['}'] from by
    simp [jsonDumps, List.append_assoc]]
  exact List.getLast?_concat _

theorem jsonDumps_getLast (M : List (List Char × List Char)) :
    (jsonDumps M).getLast? = some '}' := by
  have := getLast_append_dumps [] M
  simpa using this

theorem jsonDumps_ne_nil (M : List (List Char × List Char)) :
    jsonDumps M ≠ [] := by
  simp [jsonDumps]

theorem parseJsonLine_dumps (M : List (List Char × List Char))
    (hnd : (M.map Prod.fst).Nodup) : parseJsonLine (jsonDumps M) = [M] := by
  unfold parseJsonLine
  dsimp only
  rw [pyStrip_eq_self _ (by rw [show jsonDumps M = jsonDumps M ++ [] from by simp]; exact head_dumps_append M []) (jsonDumps_getLast M)]
  rw [if_neg (jsonDumps_ne_nil M)]
  rw [jsonLoads_jsonDumps, dictOfPairs_eq_self M hnd]

theorem parseJsonLine_concat (M1 M2 : List (List Char × List Char))
    (hnd1 : (M1.map Prod.fst).Nodup) (hnd2 : (M2.map Prod.fst).Nodup)
    (hb1 : braceFree M1) (hb2 : braceFree M2) :
    parseJsonLine (jsonDumps M1 ++ jsonDumps M2) = [M1, M2] := by
  have helem : ∀ M : List (List Char × List Char), (M.map Prod.fst).Nodup →
      (if pyStrip (jsonDumps M) = [] then none
       else jsonLoads (pyStrip (jsonDumps M))) = some M := by
    intro M hnd
    rw [pyStrip_eq_self _ (by rw [show jsonDumps M = jsonDumps M ++ [] from by simp]; exact head_dumps_append M []) (jsonDumps_getLast M)]
    rw [if_neg (jsonDumps_ne_nil M)]
    rw [jsonLoads_jsonDumps, dictOfPairs_eq_self M hnd]
  unfold parseJsonLine
  dsimp only
  rw [pyStrip_eq_self _ (head_dumps_append M1 _) (getLast_append_dumps _ M2)]
  rw [if_neg (by simp [jsonDumps])]
  rw [jsonLoads_extra M1 M2]
  rw [split_concat_two M1 M2 hb1 hb2]
  rw [List.filterMap]
  simp only [List.filterMap_cons, List.filterMap_nil]
  rw [helem M1 hnd1, helem M2 hnd2]

/-- The spec's frame encoding: the serialized JSON object followed by
the single terminating newline (the framing every Worker send
implements). -/
def encodeFrame (M : List (List Char × List Char)) : List Char :=
  jsonDumps M ++ ['\n']

